import Mathlib

/-!
# A shallow embedding of the CHERIoT dynamic-configuration broker

This file models `examples/10.dynamic_configuration/config_broker.cc`
(together with its header `config_broker.h`) and proves properties of the
model.  The broker is a capability-gated publish/subscribe service:

* `config_capability_unseal` models the function of the same name
  (config_broker.cc, lines 56-84): it unseals a `ConfigToken` and, on the
  token's first validation, assigns it an id from a `static uint16_t`
  counter that starts at 1 and is post-incremented.
* `find_or_create_config` models the registry lookup (lines 90-114).
* `add_callback` models the subscriber-list update (lines 121-138).
* `set_config` models the publish entry point (lines 144-212).
* `on_config` models the subscribe entry point (lines 220-247).
* `sweep` models one iteration of the notifier loop `init` (lines 252-289).

Machine integers are modelled as `Nat` with explicit reduction modulo
`2 ^ 16` (for the `uint16_t` id counter) where overflow matters.  The C
heap is modelled as an association list from addresses to byte lists, with
`malloc` drawing fresh addresses from a monotone `nextAddr` counter, so
that aliasing questions (does the broker copy the publisher's buffer?) are
expressible.  Callback function pointers are opaque `Nat` handles;
invoking a callback is modelled by emitting a `Call` record into a trace.
-/

namespace ConfigBroker

/-- The two token kinds, from config_broker.h lines 11-15. -/
inductive ConfigTokenKind where
  | ReadToken
  | WriteToken
deriving DecidableEq, Repr

/-- The unsealed token contents, from config_broker.h lines 17-23:
kind, a 16-bit id assigned on first use, a maximum item size, and the
name of the configuration item. -/
structure ConfigToken where
  kind : ConfigTokenKind
  id : Nat
  maxSize : Nat
  configId : String
deriving DecidableEq, Repr

/-- CHERI permissions relevant to this example.  Only the three that
appear in config_broker.cc line 202 are distinguished. -/
inductive Perm where
  | Load
  | Store
  | Global
deriving DecidableEq, Repr

/-- A CHERI capability to a data buffer: an address, the accessible
length (its bounds) and its permission set. -/
structure Cap where
  addr : Nat
  bounds : Nat
  perms : List Perm
deriving DecidableEq, Repr

/-- The heap: an association list from allocation addresses to byte
contents.  The most recent binding for an address shadows older ones. -/
abbrev Heap := List (Nat × List Nat)

/-- Look an address up in the heap. -/
def heapLookup (h : Heap) (a : Nat) : Option (List Nat) :=
  match h with
  | [] => none
  | (b, v) :: rest => if b = a then some v else heapLookup rest a

/-- Install a fresh allocation. -/
def heapInsert (h : Heap) (a : Nat) (v : List Nat) : Heap :=
  (a, v) :: h

/-- Model of `free`: drop every binding at the address. -/
def heapFree (h : Heap) (a : Nat) : Heap :=
  h.filter (fun p => p.1 ≠ a)

/-- Overwrite the contents of an existing allocation (a store through a
capability to that allocation). -/
def heapWrite (h : Heap) (a : Nat) (v : List Nat) : Heap :=
  match h with
  | [] => []
  | (b, w) :: rest =>
      if b = a then (a, v) :: heapWrite rest a v
      else (b, w) :: heapWrite rest a v

/-- Model of `memcpy(dst, src, n)`'s read side: the first `n` bytes of
the buffer at address `a`. -/
def memread (h : Heap) (a : Nat) (n : Nat) : List Nat :=
  ((heapLookup h a).getD []).take n

/-- A registered callback, modelling `struct CbInfo` (config_broker.cc
lines 29-33): the client id and an opaque handle standing for the
callback function pointer. -/
structure CbInfo where
  id : Nat
  cb : Nat
deriving DecidableEq, Repr

/-- One configuration item, modelling `struct Config` (config_broker.cc
lines 35-41): name, updated flag, callback list, and the (nullable)
capability to the current data value. -/
structure Config where
  name : String
  updated : Bool
  cbList : List CbInfo
  data : Option Cap
deriving DecidableEq, Repr

/-- An invocation of a subscriber callback: which callback handle was
called, and the two arguments `(name, data)` it received.  The C code
always passes `c->data`, which is null only if an entry is swept while it
has no value, hence the `Option Cap`. -/
structure Call where
  cb : Nat
  name : String
  data : Option Cap
deriving DecidableEq, Repr

/-- The broker compartment's mutable state: the `pending` futex word, the
`configData` vector, the `static uint16_t nextId` counter inside
`config_capability_unseal`, plus the modelled heap and its allocation
frontier. -/
structure BrokerState where
  pending : Nat
  configData : List Config
  nextId : Nat
  heap : Heap
  nextAddr : Nat
deriving DecidableEq, Repr

/-- The state at broker start-up: no pending updates, no entries, and the
id counter at its initializer 1. -/
def initialState : BrokerState :=
  { pending := 0, configData := [], nextId := 1, heap := [], nextAddr := 0 }

/-- One post-increment of the `static uint16_t nextId` counter
(config_broker.cc lines 79-80): `uint16_t` arithmetic wraps modulo
`2 ^ 16`. -/
def bumpNextId (x : Nat) : Nat :=
  (x + 1) % 65536

/-- `config_capability_unseal` (config_broker.cc lines 56-84).  The
sealed argument is modelled as `Option ConfigToken`: `none` is a
capability that fails to unseal.  On success, if the token's id is still
0 the current value of the counter is assigned to it and the counter is
post-incremented; otherwise the token is returned unchanged.  Returns the
resulting token view and the new counter value. -/
def config_capability_unseal (sealedCap : Option ConfigToken) (nextId : Nat) :
    Option ConfigToken × Nat :=
  match sealedCap with
  | none => (none, nextId)
  | some token =>
      if token.id = 0 then
        (some { token with id := nextId }, bumpNextId nextId)
      else
        (some token, nextId)

/-- Position of the entry whose name equals `name`, scanning the vector
front to back as the `strcmp` loop of config_broker.cc lines 92-98 does.
Name comparison is idealized as string equality here; in the program a
full-name match never completes, because the stored name has no NUL
terminator (config_broker.cc lines 104-105) and the matching `strcmp`
reads past the allocation's bounds.  The byte-exact model of the stored
names and of `strcmp`, faithful on hits, is `findOrCreateBytes` below;
theorems that rely on this idealized definition concern only miss paths
or are conditional on a hit the program cannot perform. -/
def lookupConfig (cfgs : List Config) (name : String) : Option Nat :=
  match cfgs with
  | [] => none
  | c :: rest =>
      if c.name = name then some 0
      else (lookupConfig rest name).map (· + 1)

/-- A freshly created entry (config_broker.cc lines 101-108):
`updated = false`, no data, and an empty callback list. -/
def newConfig (name : String) : Config :=
  { name := name, updated := false, cbList := [], data := none }

/-- `find_or_create_config` (config_broker.cc lines 90-114): return the
existing entry for `name`, or append a fresh one.  Result: the entry's
index, the entry itself, and the updated state.  The hit case inherits
the idealization of `lookupConfig`: the program faults inside the
lookup's `strcmp` on every hit (see `findOrCreateBytes`), so only the
miss case is a path the program can complete. -/
def find_or_create_config (s : BrokerState) (name : String) :
    Nat × Config × BrokerState :=
  match lookupConfig s.configData name with
  | some i => (i, (s.configData.getD i (newConfig name)), s)
  | none =>
      (s.configData.length, newConfig name,
        { s with configData := s.configData ++ [newConfig name] })

/-- `add_callback` (config_broker.cc lines 121-138): scan the callback
list; if an entry with this id exists, overwrite its callback in place
and stop; otherwise append a new `CbInfo` at the end. -/
def add_callback (l : List CbInfo) (id : Nat) (cb : Nat) : List CbInfo :=
  match l with
  | [] => [{ id := id, cb := cb }]
  | x :: rest =>
      if x.id = id then { id := id, cb := cb } :: rest
      else x :: add_callback rest id cb

/-- The failure cause of a publish.  The C entry point collapses every
failure to the single return value -1 (config_broker.cc lines 151, 159,
167, 173, 184); the constructor records which of the five distinct
early-return sites fired, matching the error taxonomy the spec gives
those sites. -/
inductive SetConfigError where
  | InvalidToken
  | NotAuthorized
  | SizeExceeded
  | BufferTooSmall
  | AllocationFailure
deriving DecidableEq, Repr

/-- Modelled from the spec: permission masking of the broker's retained
copy.  The statement `CHERI::Capability(c->data).permissions() &=
{Load, Global}` (config_broker.cc lines 201-202) relies on the
`CHERI::Capability` class of cheri.hh, which is not among the source
files here; per the spec, the retained value's permissions are reduced to
the intersection with `{Load, Global}` so that the value handed to
subscribers is read-only. -/
def permsAndLoadGlobal (p : List Perm) : List Perm :=
  p.filter (fun x => x = Perm.Load ∨ x = Perm.Global)

/-- The permissions `malloc` grants on a fresh heap allocation: load and
store on an unsealed global capability. -/
def mallocPerms : List Perm :=
  [Perm.Load, Perm.Store, Perm.Global]

/-- The heap after the publish's allocation, copy, and free of the
replaced value (config_broker.cc lines 180-196): install the new
allocation carrying the copied bytes, then free the old value if there
was one. -/
def setConfigHeap (h : Heap) (newAddr : Nat) (bytes : List Nat)
    (old : Option Cap) : Heap :=
  match old with
  | some oldCap => heapFree (heapInsert h newAddr bytes) oldCap.addr
  | none => heapInsert h newAddr bytes

/-- `set_config` (config_broker.cc lines 144-212), the publish entry
point.  In order: unseal the capability (id assignment happens even if a
later check fails, because it is done inside
`config_capability_unseal`); require a write token; require
`size <= token->maxSize`; require `size` within the data capability's
bounds; find or create the entry; `malloc(size)` — modelled with the
`allocOk` oracle deciding whether the allocation succeeds — and on
success `memcpy` the caller's bytes, free the entry's old value, store
the new capability with permissions masked to load/global, set the
updated flag, and increment `pending` (a `uint32_t`).  Returns the
result and the new state. -/
def set_config (s : BrokerState) (sealedCap : Option ConfigToken)
    (data : Cap) (size : Nat) (allocOk : Bool) :
    Except SetConfigError Unit × BrokerState :=
  match config_capability_unseal sealedCap s.nextId with
  | (none, n) => (Except.error SetConfigError.InvalidToken, { s with nextId := n })
  | (some token, n) =>
      if token.kind ≠ ConfigTokenKind.WriteToken then
        (Except.error SetConfigError.NotAuthorized, { s with nextId := n })
      else if size > token.maxSize then
        (Except.error SetConfigError.SizeExceeded, { s with nextId := n })
      else if size > data.bounds then
        (Except.error SetConfigError.BufferTooSmall, { s with nextId := n })
      else
        match find_or_create_config { s with nextId := n } token.configId with
        | (i, c, s1) =>
            if allocOk = false then
              (Except.error SetConfigError.AllocationFailure, s1)
            else
              (Except.ok (),
               { s1 with
                 heap := setConfigHeap s1.heap s1.nextAddr
                   (memread s1.heap data.addr size) c.data,
                 nextAddr := s1.nextAddr + 1,
                 configData := s1.configData.set i
                   { c with
                     data := some (Cap.mk s1.nextAddr size
                       (permsAndLoadGlobal mallocPerms)),
                     updated := true },
                 pending := (s1.pending + 1) % 4294967296 })

/-- `on_config` (config_broker.cc lines 220-247), the subscribe entry
point.  Unseal the capability; on failure return with no effect beyond
the unseal itself.  On success — note that the code does not inspect
`token->kind`, so a write token passes this point exactly like a read
token — find or create the entry, register the callback under the
token's id, and, if the entry already has data, invoke the callback once
with `(token->configId, c->data)` before returning.  Returns the new
state and the list of callback invocations performed during the call. -/
def on_config (s : BrokerState) (sealedCap : Option ConfigToken) (cb : Nat) :
    BrokerState × List Call :=
  match config_capability_unseal sealedCap s.nextId with
  | (none, n) => ({ s with nextId := n }, [])
  | (some token, n) =>
      match find_or_create_config { s with nextId := n } token.configId with
      | (i, c, s1) =>
          match c.data with
          | some d =>
              ({ s1 with
                  configData := s1.configData.set i
                    { c with cbList := add_callback c.cbList token.id cb } },
               [{ cb := cb, name := token.configId, data := some d }])
          | none =>
              ({ s1 with
                  configData := s1.configData.set i
                    { c with cbList := add_callback c.cbList token.id cb } }, [])

/-- The per-entry body of the notifier loop (config_broker.cc lines
276-287): if the entry is marked updated, clear the flag and call every
registered callback with `(c->name, c->data)`; otherwise leave it
alone. -/
def sweepEntry (c : Config) : Config × List Call :=
  if c.updated then
    ({ c with updated := false },
     c.cbList.map (fun k => { cb := k.cb, name := c.name, data := c.data }))
  else
    (c, [])

/-- Fold `sweepEntry` over the whole registry, front to back, collecting
the invocations in order. -/
def sweepEntries (cfgs : List Config) : List Config × List Call :=
  match cfgs with
  | [] => ([], [])
  | c :: rest =>
      let p := sweepEntry c
      let q := sweepEntries rest
      (p.1 :: q.1, p.2 ++ q.2)

/-- One iteration of the notifier thread `init` (config_broker.cc lines
252-289) after `futex_wait` returns: reset `pending` to 0 first, then
iterate over every entry, delivering updates. -/
def sweep (s : BrokerState) : BrokerState × List Call :=
  let s1 : BrokerState := { s with pending := 0 }
  match sweepEntries s1.configData with
  | (cfgs, calls) => ({ s1 with configData := cfgs }, calls)

/-!
## Byte-exact model of the stored entry names

`find_or_create_config` stores a new entry's name with

  c->name = static_cast<char *>(malloc(strlen(name)));
  strncpy(c->name, name, strlen(name));

(config_broker.cc lines 104-105): the allocation is `strlen(name)` bytes
and `strncpy` with count `strlen(name)` copies exactly those bytes, so no
NUL terminator is stored.  The functions below model C strings as byte
lists, with a read beyond a buffer's bounds being a fault — on CHERI, a
bounds violation; in ISO C, undefined behaviour — to settle what the
later `strcmp(c->name, name)` (line 94) does. -/

/-- `strlen`: the number of bytes before the first NUL. -/
def strlenBytes (q : List Nat) : Nat :=
  (q.takeWhile (fun b => b ≠ 0)).length

/-- The bytes actually stored for a new entry's name:
`malloc(strlen(name))` followed by `strncpy(..., name, strlen(name))`
yields exactly the `strlen(name)` bytes before the terminator, and no
terminator. -/
def storeName (q : List Nat) : List Nat :=
  q.take (strlenBytes q)

/-- `strcmp(a, b) == 0` over bounded buffers.  Each step reads one byte
from each buffer; a read past a buffer's end is a fault (`none`).
`some true` means the strings compared equal up to a common NUL,
`some false` that a differing byte was found first. -/
def strcmpEqBytes : List Nat → List Nat → Option Bool
  | a :: as, b :: bs =>
      if a = b then
        (if a = 0 then some true else strcmpEqBytes as bs)
      else some false
  | _, _ => none

/-- The lookup loop of `find_or_create_config` at byte level: scan the
stored name buffers with `strcmp`; `none` is a fault during some
comparison, `some none` a completed scan with no match, `some (some i)` a
match at index `i`. -/
def findConfigBytes (stored : List (List Nat)) (q : List Nat) :
    Option (Option Nat) :=
  match stored with
  | [] => some none
  | sb :: rest =>
      match strcmpEqBytes sb q with
      | none => none
      | some true => some (some 0)
      | some false => (findConfigBytes rest q).map (fun r => r.map (· + 1))

/-- `find_or_create_config` at byte level, tracking only the stored name
buffers: look the query up; on a miss append `storeName q`; on a fault
propagate the fault.  Returns the new buffer list and the index of the
entry returned. -/
def findOrCreateBytes (stored : List (List Nat)) (q : List Nat) :
    Option (List (List Nat) × Nat) :=
  match findConfigBytes stored q with
  | none => none
  | some (some i) => some (stored, i)
  | some none => some (stored ++ [storeName q], stored.length)

/-- The byte string of an ASCII name, NUL terminator included, as the
`configId` array of a token produced by the capability macros of
config_broker.h holds it. -/
def cstrBytes (s : String) : List Nat :=
  s.data.map Char.toNat ++ [0]

/-- The value of the `static uint16_t nextId` counter after `n`
first-time validations: the counter starts at 1 and each assignment
post-increments it with 16-bit wraparound. -/
def nextIdAfter : Nat → Nat
  | 0 => 1
  | n + 1 => bumpNextId (nextIdAfter n)

/-- The data value currently stored in a registry for `name`, observed
through the same front-to-back lookup the broker itself uses. -/
def entryDataOf (cfgs : List Config) (name : String) : Option Cap :=
  match lookupConfig cfgs name with
  | some i => (cfgs[i]?).bind Config.data
  | none => none

/-!
## Helper lemmas about the heap and the registry lookup
-/

theorem heapLookup_insert_self (h : Heap) (a : Nat) (v : List Nat) :
    heapLookup (heapInsert h a v) a = some v := by
  simp [heapInsert, heapLookup]

theorem heapLookup_free_ne (h : Heap) (a b : Nat) (hne : b ≠ a) :
    heapLookup (heapFree h a) b = heapLookup h b := by
  induction h with
  | nil => rfl
  | cons p rest ih =>
      obtain ⟨x, v⟩ := p
      by_cases hx : x = a
      · subst hx
        simp [heapFree, heapLookup, Ne.symm hne] at ih ⊢
        simpa [heapFree] using ih
      · by_cases hb : x = b
        · subst hb
          simp [heapFree, heapLookup, hx]
        · simp [heapFree, heapLookup, hx, hb] at ih ⊢
          simpa [heapFree] using ih

theorem heapLookup_write_ne (h : Heap) (a b : Nat) (v : List Nat) (hne : b ≠ a) :
    heapLookup (heapWrite h a v) b = heapLookup h b := by
  induction h with
  | nil => rfl
  | cons p rest ih =>
      obtain ⟨x, w⟩ := p
      by_cases hx : x = a
      · subst hx
        simp [heapWrite, heapLookup, Ne.symm hne, ih]
      · simp [heapWrite, heapLookup, hx, ih]

theorem lookupConfig_cons_hit (c : Config) (rest : List Config) (name : String)
    (hc : c.name = name) : lookupConfig (c :: rest) name = some 0 := by
  simp [lookupConfig, hc]

theorem lookupConfig_cons_miss (c : Config) (rest : List Config) (name : String)
    (hc : ¬c.name = name) :
    lookupConfig (c :: rest) name = (lookupConfig rest name).map (· + 1) := by
  simp [lookupConfig, hc]

theorem lookupConfig_lt_length (cfgs : List Config) (name : String) (i : Nat)
    (h : lookupConfig cfgs name = some i) : i < cfgs.length := by
  induction cfgs generalizing i with
  | nil => simp [lookupConfig] at h
  | cons c rest ih =>
      by_cases hc : c.name = name
      · rw [lookupConfig_cons_hit c rest name hc] at h
        simp only [Option.some_inj] at h
        simp [← h]
      · rw [lookupConfig_cons_miss c rest name hc] at h
        cases hx : lookupConfig rest name with
        | none => rw [hx] at h; simp at h
        | some j =>
            rw [hx] at h
            simp only [Option.map_some', Option.some_inj] at h
            have hjl := ih j hx
            simp only [List.length_cons]
            omega

theorem lookupConfig_get (cfgs : List Config) (name : String) (i : Nat)
    (h : lookupConfig cfgs name = some i) :
    ∃ c, cfgs[i]? = some c ∧ c.name = name := by
  induction cfgs generalizing i with
  | nil => simp [lookupConfig] at h
  | cons c rest ih =>
      by_cases hc : c.name = name
      · rw [lookupConfig_cons_hit c rest name hc] at h
        simp only [Option.some_inj] at h
        exact ⟨c, by simp [← h], hc⟩
      · rw [lookupConfig_cons_miss c rest name hc] at h
        cases hx : lookupConfig rest name with
        | none => rw [hx] at h; simp at h
        | some j =>
            rw [hx] at h
            simp only [Option.map_some', Option.some_inj] at h
            obtain ⟨c', hc', hn⟩ := ih j hx
            refine ⟨c', ?_, hn⟩
            rw [← h]
            simpa using hc'

theorem lookupConfig_append_miss (cfgs : List Config) (name : String) (c : Config)
    (h : lookupConfig cfgs name = none) (hc : c.name = name) :
    lookupConfig (cfgs ++ [c]) name = some cfgs.length := by
  induction cfgs with
  | nil => simp [lookupConfig, hc]
  | cons d rest ih =>
      by_cases hd : d.name = name
      · rw [lookupConfig_cons_hit d rest name hd] at h
        simp at h
      · rw [lookupConfig_cons_miss d rest name hd] at h
        have h' : lookupConfig rest name = none := by
          cases hx : lookupConfig rest name with
          | none => rfl
          | some j => rw [hx] at h; simp at h
        rw [List.cons_append, lookupConfig_cons_miss d (rest ++ [c]) name hd, ih h']
        simp

theorem lookupConfig_set_same (cfgs : List Config) (name : String) (i : Nat)
    (c : Config) (h : lookupConfig cfgs name = some i) (hc : c.name = name) :
    lookupConfig (cfgs.set i c) name = some i := by
  induction cfgs generalizing i with
  | nil => simp [lookupConfig] at h
  | cons d rest ih =>
      by_cases hd : d.name = name
      · rw [lookupConfig_cons_hit d rest name hd] at h
        simp only [Option.some_inj] at h
        rw [← h, List.set_cons_zero]
        exact lookupConfig_cons_hit c rest name hc
      · rw [lookupConfig_cons_miss d rest name hd] at h
        cases hx : lookupConfig rest name with
        | none => rw [hx] at h; simp at h
        | some j =>
            rw [hx] at h
            simp only [Option.map_some', Option.some_inj] at h
            rw [← h, List.set_cons_succ,
              lookupConfig_cons_miss d (rest.set j c) name hd, ih j hx]
            simp

theorem sweepEntries_fst (cfgs : List Config) :
    (sweepEntries cfgs).1 = cfgs.map (fun c => { c with updated := false }) := by
  induction cfgs with
  | nil => rfl
  | cons c rest ih =>
      by_cases hc : c.updated
      · simp [sweepEntries, sweepEntry, hc, ih]
      · obtain ⟨n, u, cl, d⟩ := c
        simp only [Bool.not_eq_true] at hc
        subst hc
        simp [sweepEntries, sweepEntry, ih]

theorem sweepEntries_snd (cfgs : List Config) :
    (sweepEntries cfgs).2 = (cfgs.filter (fun c => c.updated)).flatMap
      (fun c => c.cbList.map (fun k => { cb := k.cb, name := c.name, data := c.data })) := by
  induction cfgs with
  | nil => rfl
  | cons c rest ih =>
      by_cases hc : c.updated
      · simp [sweepEntries, sweepEntry, hc, ih]
      · simp [sweepEntries, sweepEntry, hc, ih]

theorem sweep_eq (s : BrokerState) :
    sweep s = ({ s with
                  pending := 0,
                  configData := s.configData.map (fun c => { c with updated := false }) },
               (s.configData.filter (fun c => c.updated)).flatMap
                 (fun c => c.cbList.map
                   (fun k => { cb := k.cb, name := c.name, data := c.data }))) := by
  have h1 := sweepEntries_fst s.configData
  have h2 := sweepEntries_snd s.configData
  cases hq : sweepEntries s.configData with
  | mk cfgs calls =>
      rw [hq] at h1 h2
      simp only at h1 h2
      simp [sweep, hq, h1, h2]

/-- C9: each notifier sweep resets the pending counter to 0, clears the
updated flag of every entry, and invokes, for exactly the entries whose
updated flag was set, every callback in their subscriber lists with the
entry's name and current value; entries whose flag is clear trigger no
callbacks.  The reset is performed on entry to the sweep, before the
iteration, which in this sequential model is visible as: the delivered
calls and final registry are functions of the registry alone, and the
final pending count is 0 regardless of its initial value. -/
theorem sweep_resets_clears_and_delivers (s : BrokerState) :
    (sweep s).1.pending = 0 ∧
    (sweep s).1.configData = s.configData.map (fun c => { c with updated := false }) ∧
    (sweep s).2 = (s.configData.filter (fun c => c.updated)).flatMap
      (fun c => c.cbList.map (fun k => { cb := k.cb, name := c.name, data := c.data })) := by
  rw [sweep_eq]
  exact ⟨rfl, rfl, rfl⟩

/-- C1 (code behaviour at the failing input): the subscribe entry point
does not check the token's kind.  Presenting a valid WRITE token to
`on_config` from the empty broker state registers the callback all the
same: the call creates the entry and installs the callback handle 7 under
the token's id 5, instead of failing with NotAuthorized and registering
nothing. -/
theorem onConfig_accepts_write_token :
    (ConfigToken.mk ConfigTokenKind.WriteToken 5 16 "config1").kind ≠
        ConfigTokenKind.ReadToken ∧
    on_config initialState
        (some (ConfigToken.mk ConfigTokenKind.WriteToken 5 16 "config1")) 7 =
      ({ pending := 0,
         configData := [{ name := "config1", updated := false,
                          cbList := [{ id := 5, cb := 7 }], data := none }],
         nextId := 1, heap := [], nextAddr := 0 }, []) := by
  constructor
  · simp
  · rfl

/-- C5 (code behaviour at the failing input): the registry stores a new
entry's name as `malloc(strlen(name))` bytes filled by
`strncpy(..., strlen(name))`, i.e. without a NUL terminator.  Calling the
find-or-create lookup twice with the same name "config1" therefore does
not return the same entry the second time: the second call's `strcmp`
runs off the end of the 7-byte stored name buffer — a CHERI bounds fault
(undefined behaviour in ISO C) — instead of matching. -/
theorem findOrCreateBytes_second_call_faults :
    (findOrCreateBytes [] (cstrBytes "config1")).bind
        (fun p => findOrCreateBytes p.1 (cstrBytes "config1")) = none ∧
    storeName (cstrBytes "config1") = [99, 111, 110, 102, 105, 103, 49] := by
  constructor
  · rfl
  · rfl

theorem addCallback_fresh (l : List CbInfo) (id cb : Nat)
    (hid : id ∉ l.map CbInfo.id) :
    add_callback l id cb = l ++ [{ id := id, cb := cb }] := by
  induction l with
  | nil => rfl
  | cons x rest ih =>
      simp only [List.map_cons, List.mem_cons] at hid
      push_neg at hid
      simp [add_callback, Ne.symm hid.1, ih hid.2]

theorem addCallback_present_ids (l : List CbInfo) (id cb : Nat)
    (hid : id ∈ l.map CbInfo.id) :
    (add_callback l id cb).map CbInfo.id = l.map CbInfo.id := by
  induction l with
  | nil => simp at hid
  | cons x rest ih =>
      by_cases hx : x.id = id
      · simp [add_callback, hx]
      · simp only [List.map_cons, List.mem_cons] at hid
        rcases hid with hid | hid
        · exact absurd hid.symm hx
        · simp [add_callback, hx, ih hid]

theorem addCallback_nodup (l : List CbInfo) (id cb : Nat)
    (hnd : (l.map CbInfo.id).Nodup) :
    ((add_callback l id cb).map CbInfo.id).Nodup := by
  by_cases hid : id ∈ l.map CbInfo.id
  · rw [addCallback_present_ids l id cb hid]
    exact hnd
  · rw [addCallback_fresh l id cb hid]
    simp only [List.map_append, List.map_cons, List.map_nil]
    rw [List.nodup_append]
    exact ⟨hnd, List.nodup_singleton _, by simpa using hid⟩

theorem addCallback_filter (l : List CbInfo) (id cb : Nat)
    (hnd : (l.map CbInfo.id).Nodup) :
    (add_callback l id cb).filter (fun k => k.id == id) = [{ id := id, cb := cb }] := by
  induction l with
  | nil => simp [add_callback]
  | cons x rest ih =>
      simp only [List.map_cons, List.nodup_cons] at hnd
      by_cases hx : x.id = id
      · have hnotin : ∀ k ∈ rest, ¬(k.id == id) = true := by
          intro k hk
          simp only [beq_iff_eq]
          intro hkid
          exact hnd.1 (hx ▸ hkid ▸ List.mem_map_of_mem CbInfo.id hk)
        simp only [add_callback, if_pos hx]
        rw [List.filter_cons_of_pos (by simp)]
        rw [List.filter_eq_nil_iff.mpr hnotin]
      · have hrec := ih hnd.2
        simp only [add_callback, if_neg hx]
        rw [List.filter_cons_of_neg (by simp [hx]), hrec]

/-- C6: the callback list of an entry holds at most one callback per
subscriber id.  Registering under a fresh id appends exactly one element;
registering under a present id rewrites that element's callback in place,
keeping the list's length and id sequence; and when the ids are distinct
(as they are for lists built by `add_callback` alone), re-registering
with the same id — even twice in a row, as after a subscriber restart —
leaves exactly one entry for that id carrying the latest callback, so one
sweep makes exactly one invocation for that subscriber. -/
theorem addCallback_at_most_one_per_id (l : List CbInfo) (id cb cb' : Nat) :
    (id ∉ l.map CbInfo.id → add_callback l id cb = l ++ [{ id := id, cb := cb }]) ∧
    (id ∈ l.map CbInfo.id →
      (add_callback l id cb).length = l.length ∧
      (add_callback l id cb).map CbInfo.id = l.map CbInfo.id) ∧
    ((l.map CbInfo.id).Nodup →
      ((add_callback l id cb).map CbInfo.id).Nodup ∧
      (add_callback l id cb).filter (fun k => k.id == id) = [{ id := id, cb := cb }] ∧
      (add_callback (add_callback l id cb') id cb).filter (fun k => k.id == id) =
        [{ id := id, cb := cb }]) := by
  refine ⟨fun hid => addCallback_fresh l id cb hid, fun hid => ⟨?_, ?_⟩, fun hnd => ?_⟩
  · have h := addCallback_present_ids l id cb hid
    have := congrArg List.length h
    simpa using this
  · exact addCallback_present_ids l id cb hid
  · exact ⟨addCallback_nodup l id cb hnd, addCallback_filter l id cb hnd,
      addCallback_filter _ id cb (addCallback_nodup l id cb' hnd)⟩

/-- Closed-input instances of the C6 theorem: registering a fresh id 2
on a singleton list appends; double re-registration of id 1 keeps exactly
one callback for id 1, holding the latest handle. -/
theorem addCallback_at_most_one_per_id_witness :
    add_callback [{ id := 1, cb := 5 }] 2 9 =
      [{ id := 1, cb := 5 }, { id := 2, cb := 9 }] ∧
    (add_callback (add_callback [{ id := 1, cb := 5 }] 1 8) 1 9).filter
        (fun k => k.id == 1) = [{ id := 1, cb := 9 }] := by
  refine ⟨(addCallback_at_most_one_per_id [{ id := 1, cb := 5 }] 2 9 9).1 (by decide), ?_⟩
  exact ((addCallback_at_most_one_per_id [{ id := 1, cb := 5 }] 1 9 8).2.2 (by decide)).2.2

theorem unseal_some_fields (t : ConfigToken) (n : Nat) :
    ∃ t' n', config_capability_unseal (some t) n = (some t', n') ∧
      t'.kind = t.kind ∧ t'.maxSize = t.maxSize ∧ t'.configId = t.configId := by
  unfold config_capability_unseal
  by_cases h : t.id = 0 <;> simp [h]

theorem set_append_length (xs : List α) (a b : α) :
    (xs ++ [a]).set xs.length b = xs ++ [b] := by
  induction xs with
  | nil => rfl
  | cons x rest ih => simp [ih]

theorem getElem?_append_length (xs : List α) (a : α) :
    (xs ++ [a])[xs.length]? = some a := by
  induction xs with
  | nil => rfl
  | cons x rest ih =>
      simp only [List.cons_append, List.length_cons, List.getElem?_cons_succ]
      exact ih

theorem find_or_create_config_spec (s : BrokerState) (name : String)
    (i : Nat) (c : Config) (s1 : BrokerState)
    (hf : find_or_create_config s name = (i, c, s1)) :
    c.name = name ∧
    lookupConfig s1.configData name = some i ∧
    s1.configData[i]? = some c ∧
    s1.pending = s.pending ∧ s1.heap = s.heap ∧ s1.nextAddr = s.nextAddr ∧
    s1.nextId = s.nextId ∧
    s1.configData.take s.configData.length = s.configData ∧
    (∀ d, c.data = some d → c ∈ s.configData) := by
  unfold find_or_create_config at hf
  cases hl : lookupConfig s.configData name with
  | some j =>
      rw [hl] at hf
      simp only [Prod.mk.injEq] at hf
      obtain ⟨c', hc', hn⟩ := lookupConfig_get s.configData name j hl
      have hcd : s.configData.getD j (newConfig name) = c' := by
        rw [List.getD_eq_getElem?_getD, hc']
        rfl
      rw [hcd] at hf
      obtain ⟨h1, h2, h3⟩ := hf
      subst h1
      subst h2
      subst h3
      refine ⟨hn, hl, hc', rfl, rfl, rfl, rfl, List.take_length _, ?_⟩
      intro d hd
      exact List.mem_iff_getElem?.mpr ⟨j, hc'⟩
  | none =>
      rw [hl] at hf
      simp only [Prod.mk.injEq] at hf
      obtain ⟨h1, h2, h3⟩ := hf
      subst h1
      subst h2
      subst h3
      refine ⟨rfl, ?_, ?_, rfl, rfl, rfl, rfl, List.take_left _ _, ?_⟩
      · exact lookupConfig_append_miss s.configData name (newConfig name) hl rfl
      · exact getElem?_append_length s.configData (newConfig name)
      · intro d hd
        simp [newConfig] at hd

theorem entryData_set (cfgs : List Config) (i : Nat) (c1 : Config) (name : String)
    (hl : lookupConfig cfgs name = some i) (hn : c1.name = name) :
    entryDataOf (cfgs.set i c1) name = c1.data := by
  have hset := lookupConfig_set_same cfgs name i c1 hl hn
  have hlt : i < cfgs.length := lookupConfig_lt_length cfgs name i hl
  show (match lookupConfig (cfgs.set i c1) name with
        | some j => ((cfgs.set i c1)[j]?).bind Config.data
        | none => none) = c1.data
  rw [hset]
  show ((cfgs.set i c1)[i]?).bind Config.data = c1.data
  rw [List.getElem?_set_eq_of_lt c1 (by simpa using hlt)]
  rfl

theorem set_config_error_cases (s : BrokerState) (cap : Option ConfigToken)
    (data : Cap) (size : Nat) (allocOk : Bool) (e : SetConfigError)
    (s' : BrokerState)
    (hr : set_config s cap data size allocOk = (Except.error e, s')) :
    s'.pending = s.pending ∧ s'.heap = s.heap ∧ s'.nextAddr = s.nextAddr ∧
    s'.configData.take s.configData.length = s.configData := by
  unfold set_config at hr
  split at hr
  next n heq =>
      injection hr with h1 h2
      subst h2
      exact ⟨rfl, rfl, rfl, List.take_length _⟩
  next token n heq =>
      split at hr
      next =>
          injection hr with h1 h2
          subst h2
          exact ⟨rfl, rfl, rfl, List.take_length _⟩
      next =>
          split at hr
          next =>
              injection hr with h1 h2
              subst h2
              exact ⟨rfl, rfl, rfl, List.take_length _⟩
          next =>
              split at hr
              next =>
                  injection hr with h1 h2
                  subst h2
                  exact ⟨rfl, rfl, rfl, List.take_length _⟩
              next =>
                  split at hr
                  next i c s1 hf =>
                      split at hr
                      next =>
                          injection hr with h1 h2
                          subst h2
                          have hspec := find_or_create_config_spec _ _ _ _ _ hf
                          exact ⟨hspec.2.2.2.1, hspec.2.2.2.2.1,
                            hspec.2.2.2.2.2.1, hspec.2.2.2.2.2.2.2.1⟩
                      next =>
                          injection hr with h1 h2
                          exact absurd h1 (by simp)

theorem set_config_size_exceeded (s : BrokerState) (token : ConfigToken)
    (data : Cap) (size : Nat) (allocOk : Bool)
    (hk : token.kind = ConfigTokenKind.WriteToken) (hs : token.maxSize < size) :
    set_config s (some token) data size allocOk =
      (Except.error SetConfigError.SizeExceeded,
       { s with nextId := (config_capability_unseal (some token) s.nextId).2 }) := by
  obtain ⟨t', n', hu, hkind, hmax, hcid⟩ := unseal_some_fields token s.nextId
  unfold set_config
  rw [hu]
  simp only [hkind, hk, ne_eq, not_true_eq_false, ite_false, hmax]
  rw [if_pos hs]

/-- C2: every failing publish (invalid token, wrong kind, size over the
token bound, size over the buffer bounds, or allocation failure) returns
its error synchronously and leaves the pending counter, the heap, and
every pre-existing entry — in particular each entry's stored value and
updated flag — exactly as they were; specifically, a publish whose size
exceeds the token's maxSize fails with SizeExceeded and changes nothing
except the unseal's one-time id assignment. -/
theorem setConfig_failure_preserves_state (s : BrokerState)
    (cap : Option ConfigToken) (data : Cap) (size : Nat) (allocOk : Bool) :
    (∀ e, (set_config s cap data size allocOk).1 = Except.error e →
      (set_config s cap data size allocOk).2.pending = s.pending ∧
      (set_config s cap data size allocOk).2.heap = s.heap ∧
      (set_config s cap data size allocOk).2.configData.take s.configData.length
        = s.configData) ∧
    (∀ token, cap = some token → token.kind = ConfigTokenKind.WriteToken →
      token.maxSize < size →
      (set_config s cap data size allocOk).1
          = Except.error SetConfigError.SizeExceeded ∧
      (set_config s cap data size allocOk).2.configData = s.configData ∧
      (set_config s cap data size allocOk).2.pending = s.pending) := by
  constructor
  · intro e he
    have hr : set_config s cap data size allocOk
        = (Except.error e, (set_config s cap data size allocOk).2) := by
      rw [← he]
    have h := set_config_error_cases s cap data size allocOk e _ hr
    exact ⟨h.1, h.2.1, h.2.2.2⟩
  · intro token hcap hk hs
    subst hcap
    rw [set_config_size_exceeded s token data size allocOk hk hs]
    exact ⟨rfl, rfl, rfl⟩

/-- Closed-input instance of the C2 theorem: publishing 4 bytes under a
write token whose maxSize is 2 fails with SizeExceeded and leaves the
empty registry and the zero pending counter untouched. -/
theorem setConfig_failure_preserves_state_witness :
    (set_config initialState
        (some (ConfigToken.mk ConfigTokenKind.WriteToken 5 2 "config1"))
        (Cap.mk 0 8 mallocPerms) 4 true).1
      = Except.error SetConfigError.SizeExceeded ∧
    (set_config initialState
        (some (ConfigToken.mk ConfigTokenKind.WriteToken 5 2 "config1"))
        (Cap.mk 0 8 mallocPerms) 4 true).2.configData = [] ∧
    (set_config initialState
        (some (ConfigToken.mk ConfigTokenKind.WriteToken 5 2 "config1"))
        (Cap.mk 0 8 mallocPerms) 4 true).2.pending = 0 := by
  have h := (setConfig_failure_preserves_state initialState
      (some (ConfigToken.mk ConfigTokenKind.WriteToken 5 2 "config1"))
      (Cap.mk 0 8 mallocPerms) 4 true).2
      (ConfigToken.mk ConfigTokenKind.WriteToken 5 2 "config1") rfl rfl (by decide)
  exact ⟨h.1, h.2.1, h.2.2⟩

theorem unseal_eq_some (capt : Option ConfigToken) (n : Nat) (t : ConfigToken)
    (m : Nat) (h : config_capability_unseal capt n = (some t, m)) :
    ∃ t0, capt = some t0 ∧ t.kind = t0.kind ∧ t.maxSize = t0.maxSize ∧
      t.configId = t0.configId := by
  cases capt with
  | none => simp [config_capability_unseal] at h
  | some t0 =>
      refine ⟨t0, rfl, ?_⟩
      by_cases h0 : t0.id = 0
      · have hcomp : config_capability_unseal (some t0) n =
            (some { t0 with id := n }, bumpNextId n) := by
          simp [config_capability_unseal, h0]
        rw [hcomp] at h
        injection h with h1 h2
        injection h1 with h1
        rw [← h1]
        exact ⟨rfl, rfl, rfl⟩
      · have hcomp : config_capability_unseal (some t0) n = (some t0, n) := by
          simp [config_capability_unseal, h0]
        rw [hcomp] at h
        injection h with h1 h2
        injection h1 with h1
        rw [← h1]
        exact ⟨rfl, rfl, rfl⟩

theorem set_config_success_shape (s : BrokerState) (token : ConfigToken)
    (data : Cap) (size : Nat) (i : Nat) (c : Config) (s1 : BrokerState)
    (hk : token.kind = ConfigTokenKind.WriteToken)
    (hs : size ≤ token.maxSize) (hb : size ≤ data.bounds)
    (hf : find_or_create_config
        { s with nextId := (config_capability_unseal (some token) s.nextId).2 }
        token.configId = (i, c, s1)) :
    set_config s (some token) data size true =
      (Except.ok (),
       { s1 with
         heap := setConfigHeap s1.heap s1.nextAddr
           (memread s1.heap data.addr size) c.data,
         nextAddr := s1.nextAddr + 1,
         configData := s1.configData.set i
           { c with
             data := some (Cap.mk s1.nextAddr size (permsAndLoadGlobal mallocPerms)),
             updated := true },
         pending := (s1.pending + 1) % 4294967296 }) := by
  obtain ⟨t', n', hu, hkind, hmax, hcid⟩ := unseal_some_fields token s.nextId
  rw [hu] at hf
  unfold set_config
  rw [hu]
  simp only [hkind, hmax, hcid]
  rw [if_neg (by simp [hk])]
  rw [if_neg (by omega)]
  rw [if_neg (by omega)]
  simp only at hf
  rw [hf]
  rfl

/-- C10: a publish that passes token and size validation but then fails
to allocate its internal copy has already enlarged the registry: with an
unseen item name, the call returns AllocationFailure yet the registry
gains exactly one fresh entry for that name, initialized with absent
value, clear updated flag and no subscribers, while the pending counter,
heap and all prior entries are untouched. -/
theorem setConfig_allocfail_still_creates_entry (s : BrokerState)
    (token : ConfigToken) (data : Cap) (size : Nat)
    (hk : token.kind = ConfigTokenKind.WriteToken)
    (hs : size ≤ token.maxSize) (hb : size ≤ data.bounds)
    (hmiss : lookupConfig s.configData token.configId = none) :
    set_config s (some token) data size false =
      (Except.error SetConfigError.AllocationFailure,
       { s with nextId := (config_capability_unseal (some token) s.nextId).2,
                configData := s.configData ++ [newConfig token.configId] }) := by
  obtain ⟨t', n', hu, hkind, hmax, hcid⟩ := unseal_some_fields token s.nextId
  unfold set_config
  rw [hu]
  simp only [hkind, hmax, hcid]
  rw [if_neg (by simp [hk])]
  rw [if_neg (by omega)]
  rw [if_neg (by omega)]
  unfold find_or_create_config
  simp only [hmiss]
  rfl

/-- Closed-input instance of the C10 theorem: a failing allocation during
the first publish of "config1" returns AllocationFailure but leaves a
fresh "config1" entry behind in the previously empty registry. -/
theorem setConfig_allocfail_still_creates_entry_witness :
    set_config initialState
        (some (ConfigToken.mk ConfigTokenKind.WriteToken 5 16 "config1"))
        (Cap.mk 0 8 mallocPerms) 4 false =
      (Except.error SetConfigError.AllocationFailure,
       { pending := 0, configData := [newConfig "config1"], nextId := 1,
         heap := [], nextAddr := 0 }) := by
  have h := setConfig_allocfail_still_creates_entry initialState
      (ConfigToken.mk ConfigTokenKind.WriteToken 5 16 "config1")
      (Cap.mk 0 8 mallocPerms) 4 rfl (by decide) (by decide) rfl
  rw [h]
  rfl

/-- C3: a successful publish of `size` bytes stores, at a fresh
broker-owned heap address, exactly the first `size` bytes that the
caller's buffer held at the time of the call; overwriting the caller's
buffer with arbitrary bytes afterwards leaves the stored value — the one
any subscriber is later handed — unchanged, because the broker kept its
own copy and no reference into the caller's allocation. -/
theorem setConfig_copies_buffer (s : BrokerState) (token : ConfigToken)
    (data : Cap) (size : Nat) (buf : List Nat)
    (hk : token.kind = ConfigTokenKind.WriteToken)
    (hs : size ≤ token.maxSize) (hb : size ≤ data.bounds)
    (hbuf : heapLookup s.heap data.addr = some buf)
    (hfresh : data.addr < s.nextAddr)
    (hold : ∀ c0 ∈ s.configData, ∀ d, c0.data = some d → d.addr < s.nextAddr) :
    (set_config s (some token) data size true).1 = Except.ok () ∧
    ∃ stored : Cap,
      entryDataOf (set_config s (some token) data size true).2.configData
        token.configId = some stored ∧
      stored.addr = s.nextAddr ∧
      heapLookup (set_config s (some token) data size true).2.heap stored.addr
        = some (buf.take size) ∧
      ∀ junk, heapLookup
          (heapWrite (set_config s (some token) data size true).2.heap
            data.addr junk) stored.addr
        = some (buf.take size) := by
  cases hf : find_or_create_config
      { s with nextId := (config_capability_unseal (some token) s.nextId).2 }
      token.configId with
  | mk i p =>
    cases p with
    | mk c s1 =>
        have hshape := set_config_success_shape s token data size i c s1 hk hs hb hf
        obtain ⟨hcname, hlook, hget, hpend, hheap, hnaddr, hnid, htake, hmem⟩ :=
          find_or_create_config_spec _ _ _ _ _ hf
        have hnaddr' : s1.nextAddr = s.nextAddr := hnaddr
        have hheap' : s1.heap = s.heap := hheap
        have hmem' : ∀ d, c.data = some d → c ∈ s.configData := hmem
        have hbytes : memread s1.heap data.addr size = buf.take size := by
          rw [hheap']
          unfold memread
          rw [hbuf]
          rfl
        have hlive : heapLookup (setConfigHeap s1.heap s1.nextAddr
            (memread s1.heap data.addr size) c.data) s1.nextAddr
            = some (buf.take size) := by
          rw [hbytes]
          cases hcd : c.data with
          | none => exact heapLookup_insert_self s1.heap s1.nextAddr (buf.take size)
          | some old =>
              have holda : old.addr < s.nextAddr := hold c (hmem' old hcd) old hcd
              show heapLookup (heapFree (heapInsert s1.heap s1.nextAddr
                (buf.take size)) old.addr) s1.nextAddr = some (buf.take size)
              rw [heapLookup_free_ne _ old.addr s1.nextAddr (by rw [hnaddr']; omega)]
              exact heapLookup_insert_self s1.heap s1.nextAddr (buf.take size)
        have himm : ∀ junk, heapLookup (heapWrite (setConfigHeap s1.heap s1.nextAddr
            (memread s1.heap data.addr size) c.data) data.addr junk) s1.nextAddr
            = some (buf.take size) := by
          intro junk
          rw [heapLookup_write_ne _ data.addr s1.nextAddr junk (by rw [hnaddr']; omega)]
          exact hlive
        rw [hshape]
        refine ⟨rfl, ⟨⟨s1.nextAddr, size, permsAndLoadGlobal mallocPerms⟩,
          ?_, hnaddr', hlive, himm⟩⟩
        exact entryData_set s1.configData i
          { c with
            data := some (Cap.mk s1.nextAddr size (permsAndLoadGlobal mallocPerms)),
            updated := true } token.configId hlook hcname

/-- Closed-input instance of the C3 theorem: publishing 2 bytes out of a
caller buffer holding 9, 8, 7, 6 stores the copy 9, 8 at the fresh
address 1, and overwriting the caller's buffer afterwards does not change
the stored copy. -/
theorem setConfig_copies_buffer_witness :
    (set_config (BrokerState.mk 0 [] 1 [(0, [9, 8, 7, 6])] 1)
        (some (ConfigToken.mk ConfigTokenKind.WriteToken 5 16 "config1"))
        (Cap.mk 0 4 mallocPerms) 2 true).1 = Except.ok () ∧
    ∃ stored : Cap,
      entryDataOf (set_config (BrokerState.mk 0 [] 1 [(0, [9, 8, 7, 6])] 1)
          (some (ConfigToken.mk ConfigTokenKind.WriteToken 5 16 "config1"))
          (Cap.mk 0 4 mallocPerms) 2 true).2.configData "config1" = some stored ∧
      stored.addr = 1 ∧
      heapLookup (set_config (BrokerState.mk 0 [] 1 [(0, [9, 8, 7, 6])] 1)
          (some (ConfigToken.mk ConfigTokenKind.WriteToken 5 16 "config1"))
          (Cap.mk 0 4 mallocPerms) 2 true).2.heap stored.addr
        = some ([9, 8, 7, 6].take 2) ∧
      ∀ junk, heapLookup
          (heapWrite (set_config (BrokerState.mk 0 [] 1 [(0, [9, 8, 7, 6])] 1)
            (some (ConfigToken.mk ConfigTokenKind.WriteToken 5 16 "config1"))
            (Cap.mk 0 4 mallocPerms) 2 true).2.heap 0 junk) stored.addr
        = some ([9, 8, 7, 6].take 2) := by
  exact setConfig_copies_buffer (BrokerState.mk 0 [] 1 [(0, [9, 8, 7, 6])] 1)
    (ConfigToken.mk ConfigTokenKind.WriteToken 5 16 "config1")
    (Cap.mk 0 4 mallocPerms) 2 [9, 8, 7, 6]
    rfl (by decide) (by decide) rfl (by decide) (by simp)

/-- C4: the capability a successful publish stores in the entry — the one
every subscriber callback is later handed, both by the immediate delivery
in the subscribe path and by the notifier sweep — carries only the Load
and Global permissions: its write (Store) permission has been stripped,
so no subscriber can modify the shared stored value through it. -/
theorem setConfig_stored_value_readonly (s : BrokerState)
    (cap : Option ConfigToken) (data : Cap) (size : Nat) (allocOk : Bool)
    (s' : BrokerState)
    (hr : set_config s cap data size allocOk = (Except.ok (), s')) :
    ∃ t0 stored, cap = some t0 ∧
      entryDataOf s'.configData t0.configId = some stored ∧
      stored.perms = [Perm.Load, Perm.Global] ∧
      Perm.Store ∉ stored.perms := by
  unfold set_config at hr
  split at hr
  next n heq =>
      injection hr with h1 h2
      exact absurd h1 (by simp)
  next token n heq =>
      split at hr
      next =>
          injection hr with h1 h2
          exact absurd h1 (by simp)
      next =>
          split at hr
          next =>
              injection hr with h1 h2
              exact absurd h1 (by simp)
          next =>
              split at hr
              next =>
                  injection hr with h1 h2
                  exact absurd h1 (by simp)
              next =>
                  split at hr
                  next i c s1 hf =>
                      split at hr
                      next =>
                          injection hr with h1 h2
                          exact absurd h1 (by simp)
                      next =>
                          injection hr with h1 h2
                          subst h2
                          obtain ⟨t0, hcap, hk0, hm0, hcid0⟩ :=
                            unseal_eq_some cap s.nextId token n heq
                          have hspec := find_or_create_config_spec _ _ _ _ _ hf
                          refine ⟨t0, ⟨s1.nextAddr, size, permsAndLoadGlobal mallocPerms⟩,
                            hcap, ?_, by rfl, by simp [permsAndLoadGlobal, mallocPerms]⟩
                          rw [← hcid0]
                          exact entryData_set s1.configData i
                            { c with
                              data := some (Cap.mk s1.nextAddr size
                                (permsAndLoadGlobal mallocPerms)),
                              updated := true } token.configId hspec.2.1 hspec.1

/-- Closed-input instance of the C4 theorem: after a successful publish
of 4 bytes, the stored capability's permission list is exactly Load and
Global — no Store. -/
theorem setConfig_stored_value_readonly_witness :
    ∃ t0 stored,
      (some (ConfigToken.mk ConfigTokenKind.WriteToken 5 16 "config1")
        : Option ConfigToken) = some t0 ∧
      entryDataOf (set_config initialState
          (some (ConfigToken.mk ConfigTokenKind.WriteToken 5 16 "config1"))
          (Cap.mk 0 8 mallocPerms) 4 true).2.configData t0.configId
        = some stored ∧
      stored.perms = [Perm.Load, Perm.Global] ∧
      Perm.Store ∉ stored.perms := by
  exact setConfig_stored_value_readonly initialState
    (some (ConfigToken.mk ConfigTokenKind.WriteToken 5 16 "config1"))
    (Cap.mk 0 8 mallocPerms) 4 true
    (set_config initialState
      (some (ConfigToken.mk ConfigTokenKind.WriteToken 5 16 "config1"))
      (Cap.mk 0 8 mallocPerms) 4 true).2 rfl

theorem nextIdAfter_closed (n : Nat) : nextIdAfter n = (1 + n) % 65536 := by
  induction n with
  | zero => rfl
  | succ m ih =>
      show bumpNextId (nextIdAfter m) = (1 + (m + 1)) % 65536
      rw [ih]
      unfold bumpNextId
      omega

/-- C8 counterexample: the id counter is a `uint16_t`, so the claim's
"monotonically increasing, never reused, 0 never assigned" fails once
65535 first-time validations have happened.  In the reachable counter
state after 65535 first-time assignments the counter has wrapped to 0;
the 65536th first-time validation then assigns subscriberId 0 — the
reserved "unassigned" value, so that token is re-assigned on every later
validation — and the counter value after 65536 assignments equals the
value after 0 assignments, so subsequently assigned ids repeat ids
already handed out. -/
theorem unseal_wraps_to_zero :
    nextIdAfter 65535 = 0 ∧
    (config_capability_unseal
        (some (ConfigToken.mk ConfigTokenKind.ReadToken 0 0 "config1"))
        (nextIdAfter 65535)).1
      = some (ConfigToken.mk ConfigTokenKind.ReadToken 0 0 "config1") ∧
    nextIdAfter 65536 = nextIdAfter 0 := by
  have h0 : nextIdAfter 65535 = 0 := by
    rw [nextIdAfter_closed]
  refine ⟨h0, ?_, ?_⟩
  · rw [h0]
    rfl
  · rw [nextIdAfter_closed, nextIdAfter_closed]

/-- C8 amended: id assignment behaves as claimed for the first 65535
first-time validations (the counter is 16-bit and wraps after that): the
n-th first-time validation, n < 65535, assigns the fresh id n + 1, which
is nonzero, monotonically increasing and distinct from every previously
assigned id; and validating any token whose id is already nonzero returns
the same token with no side effect on the counter. -/
theorem unseal_id_assignment_amended (n : Nat) (hn : n < 65535) :
    nextIdAfter n = n + 1 ∧
    (∀ t : ConfigToken, t.id = 0 →
      config_capability_unseal (some t) (nextIdAfter n)
        = (some { t with id := n + 1 }, nextIdAfter (n + 1))) ∧
    n + 1 ≠ 0 ∧
    (∀ m, m < n → nextIdAfter m ≠ nextIdAfter n) ∧
    (∀ t : ConfigToken, t.id ≠ 0 → ∀ x,
      config_capability_unseal (some t) x = (some t, x)) := by
  have hcn : nextIdAfter n = n + 1 := by
    rw [nextIdAfter_closed]
    omega
  refine ⟨hcn, ?_, by omega, ?_, ?_⟩
  · intro t ht
    have hsucc : nextIdAfter (n + 1) = bumpNextId (nextIdAfter n) := rfl
    rw [hsucc, hcn]
    simp [config_capability_unseal, ht]
  · intro m hm
    rw [nextIdAfter_closed, nextIdAfter_closed]
    omega
  · intro t ht x
    simp [config_capability_unseal, ht]

/-- Closed-input instance of the C8 amended theorem: the fourth
first-time validation (three ids already assigned) assigns id 4, and the
counter steps to the value it holds after four assignments. -/
theorem unseal_id_assignment_amended_witness :
    nextIdAfter 3 = 4 ∧
    config_capability_unseal
        (some (ConfigToken.mk ConfigTokenKind.ReadToken 0 0 "config1"))
        (nextIdAfter 3)
      = (some (ConfigToken.mk ConfigTokenKind.ReadToken 4 0 "config1"),
         nextIdAfter 4) := by
  have h := unseal_id_assignment_amended 3 (by decide)
  exact ⟨h.1, h.2.1 (ConfigToken.mk ConfigTokenKind.ReadToken 0 0 "config1") rfl⟩

/-- C7 (code behaviour at the failing input): both delivery scenarios of
the subscribe contract require the registry lookup to return an existing
entry, and the code cannot perform that hit.  A subscribe for "config1"
after a publish has created and filled the entry — the immediate-delivery
scenario — runs find-or-create against the stored name buffer, and so
does the first publish of "config1" after a subscribe created the entry —
the first-delivery scenario.  In both, the stored name is the 7 bytes of
"config1" without a NUL terminator (malloc(strlen(name)) +
strncpy(..., strlen(name)), config_broker.cc lines 104-105), so the
lookup's `strcmp` compares 7 equal non-NUL bytes and then reads past the
allocation's end: a bounds fault (`none`), reached before any callback is
registered, any value stored, or any delivery made.  Neither the
synchronous invocation with the current value nor the first-publish
delivery can therefore occur. -/
theorem onConfig_delivery_blocked_by_name_fault :
    strcmpEqBytes (storeName (cstrBytes "config1")) (cstrBytes "config1")
      = none ∧
    findOrCreateBytes [storeName (cstrBytes "config1")] (cstrBytes "config1")
      = none := by
  exact ⟨rfl, rfl⟩

end ConfigBroker
